import Mathlib

/-!
Shallow embedding of the `heapdump` debugger command
(`scripts/gdb/custom_commands.py`): a read-only walker over the kernel slab
allocator's size-class table and per-class partial-slab free-lists.

Target memory is modelled as a partial byte map; every access the script
performs through the debugger (memory reads, symbol/type lookups, printing)
is recorded in an explicit effect trace.  Field offsets and widths, which the
script obtains from the debugger's type system at runtime, are supplied as an
explicit `Layout` record.
-/

namespace HeapDump

/-- Fixed number of size classes (`SIZE_CLASS_COUNT = 25`). -/
def SIZE_CLASS_COUNT : Nat := 25

/-- Mirror of the `SizeClassMeta` dataclass. -/
structure SizeClassMeta where
  size : Nat
  slab_order : Nat
  objects_per_slab : Nat
deriving DecidableEq

/-- Loop body of `count_int_bits` with an explicit iteration bound.  Each
iteration replaces `b` by `b &&& (b - 1)`, which is strictly smaller, so any
bound of at least `b` iterations reaches the fixpoint (see
`count_int_bits_loop_fuel`); the explicit bound keeps the definition
evaluable by the kernel. -/
def count_int_bits_loop : Nat → Nat → Nat
  | 0, _ => 0
  | fuel + 1, b => if b = 0 then 0 else 1 + count_int_bits_loop fuel (b &&& (b - 1))

/-- Mirror of `count_int_bits`: repeatedly clear the lowest set bit
(`b &= b - 1`) and count iterations. -/
def count_int_bits (b : Nat) : Nat :=
  count_int_bits_loop b b

/-- Mirror of `count_set_bits`: sum of per-byte bit counts. -/
def count_set_bits (bitmap : List Nat) : Nat :=
  (bitmap.map count_int_bits).sum

/-- The target's memory: a partial map from virtual address to byte.
`none` means the address is unmapped, so a read there raises a
memory-access error in the debugger. -/
structure Inferior where
  mem : Nat → Option Nat

/-- One observable action the script performs through the debugger. -/
inductive Effect where
  | readMem (addr len : Nat)
  | writeMem (addr len : Nat)
  | lookupType
  | lookupSymbol
  | print
deriving DecidableEq

/-- Whether an effect is a target-memory read. -/
def Effect.isRead : Effect → Bool
  | .readMem _ _ => true
  | _ => false

/-- Whether an effect is a target-memory write. -/
def Effect.isWrite : Effect → Bool
  | .writeMem _ _ => true
  | _ => false

/-- Mirror of `inferior.read_memory(addr, len)`: all `len` bytes starting at
`addr` must be mapped, otherwise the read fails. -/
def readMemory (inf : Inferior) (addr : Nat) : Nat → Option (List Nat)
  | 0 => some []
  | len + 1 =>
    match inf.mem addr with
    | none => none
    | some b => (readMemory inf (addr + 1) len).map (fun bs => b :: bs)

/-- Little-endian byte decoding, as in `int.from_bytes(b, "little")`. -/
def fromBytesLE (bs : List Nat) : Nat :=
  bs.foldr (fun b acc => b + 256 * acc) 0

/-- Mirror of `read_u64`. -/
def read_u64 (inf : Inferior) (addr : Nat) : Option Nat :=
  (readMemory inf addr 8).map fromBytesLE

/-- Structure layout data the script resolves through the debugger's type
system (`gdb.lookup_type`): the size of a `SizeClass` table element, offsets
and widths of the fields it decodes, the size of a `SlabHeader` (the bitmap
starts right after it, `slab_ptr + 1`), and the offsets of the `allocated`
counter and the `link.next` pointer inside a slab header. -/
structure Layout where
  sizeClassSize : Nat
  sizeOffset : Nat
  sizeWidth : Nat
  orderOffset : Nat
  orderWidth : Nat
  opsOffset : Nat
  opsWidth : Nat
  headOffset : Nat
  headerSize : Nat
  allocatedOffset : Nat
  allocatedWidth : Nat
  linkNextOffset : Nat
deriving DecidableEq

/-- One visited slab, as reported by `_print_slab_list`. -/
structure SlabEntry where
  addr : Nat
  allocated : Nat
  bitmapAllocated : Nat
  mismatch : Bool
deriving DecidableEq

/-- How the traversal of one size class's free-list ended.  `fuelOut` is an
artifact of the fuelled model and corresponds to the Python `while` loop not
terminating (an infinite list in memory). -/
inductive TravStatus where
  | ok
  | corrupt
  | accessError
  | fuelOut
deriving DecidableEq

/-- Mirror of `bitmap_size = (metadata.objects_per_slab + 7) // 8`. -/
def bitmap_size (objects_per_slab : Nat) : Nat :=
  (objects_per_slab + 7) / 8

/-- One iteration of the `while` loop body of `_print_slab_list`, for a
current address that is neither `0` nor `1`: read the `allocated` field of
the slab header, read the bitmap at `addr + sizeof(SlabHeader)`, print the
slab line (plus a corruption line on mismatch), then read the 64-bit
`link.next` value.  Returns the decoded entry and next address, or `none`
when a read fails (the Python code raises), together with the effect
trace of the attempted accesses. -/
def slabStepLog (inf : Inferior) (lay : Layout) (bsz : Nat) (addr : Nat) :
    Option (SlabEntry × Nat) × List Effect :=
  let aAddr := addr + lay.allocatedOffset
  match readMemory inf aAddr lay.allocatedWidth with
  | none => (none, [.readMem aAddr lay.allocatedWidth])
  | some ab =>
    let allocated_objs := fromBytesLE ab
    let bitmap_ptr := addr + lay.headerSize
    match readMemory inf bitmap_ptr bsz with
    | none => (none, [.readMem aAddr lay.allocatedWidth, .readMem bitmap_ptr bsz])
    | some bitmap =>
      let bitmap_allocated_objs := count_set_bits bitmap
      let mism := allocated_objs != bitmap_allocated_objs
      let printed := if mism then [Effect.print, Effect.print] else [Effect.print]
      let nAddr := addr + lay.linkNextOffset
      match readMemory inf nAddr 8 with
      | none =>
        (none, [.readMem aAddr lay.allocatedWidth, .readMem bitmap_ptr bsz]
          ++ printed ++ [.readMem nAddr 8])
      | some nb =>
        (some (⟨addr, allocated_objs, bitmap_allocated_objs, mism⟩, fromBytesLE nb),
          [.readMem aAddr lay.allocatedWidth, .readMem bitmap_ptr bsz]
          ++ printed ++ [.readMem nAddr 8])

/-- Result of a single loop step, without its effect trace. -/
def slabStep (inf : Inferior) (lay : Layout) (bsz : Nat) (addr : Nat) :
    Option (SlabEntry × Nat) :=
  (slabStepLog inf lay bsz addr).1

/-- The `while cur_slab_addr != 0` loop of `_print_slab_list`, fuelled.
`0` terminates normally, `1` is the corrupt-unlinked sentinel (printed and
then `break`), and any other address is stepped through `slabStepLog`. -/
def printSlabLoop (inf : Inferior) (lay : Layout) (bsz : Nat) :
    Nat → Nat → List SlabEntry × TravStatus × List Effect
  | 0, _ => ([], .fuelOut, [])
  | fuel + 1, cur =>
    if cur = 0 then ([], .ok, [])
    else if cur = 1 then ([], .corrupt, [Effect.print])
    else
      match (slabStepLog inf lay bsz cur).1 with
      | none => ([], .accessError, (slabStepLog inf lay bsz cur).2)
      | some (e, next) =>
        let rest := printSlabLoop inf lay bsz fuel next
        (e :: rest.1, rest.2.1, (slabStepLog inf lay bsz cur).2 ++ rest.2.2)

/-- Mirror of `_print_slab_list`: compute the bitmap byte length from the
size class's `objects_per_slab`, look up the `SlabHeader` type, then run the
list walk. -/
def printSlabListLog (inf : Inferior) (lay : Layout) (meta : SizeClassMeta)
    (fuel cur_slab_addr : Nat) :
    List SlabEntry × TravStatus × List Effect :=
  let bsz := bitmap_size meta.objects_per_slab
  let r := printSlabLoop inf lay bsz fuel cur_slab_addr
  (r.1, r.2.1, Effect.lookupType :: r.2.2)

/-- Entries and final status of `_print_slab_list`, without the trace. -/
def printSlabList (inf : Inferior) (lay : Layout) (meta : SizeClassMeta)
    (fuel cur_slab_addr : Nat) : List SlabEntry × TravStatus :=
  let r := printSlabListLog inf lay meta fuel cur_slab_addr
  (r.1, r.2.1)

/-- Report produced for one size class: the decoded metadata, the slab
entries visited, and how the list walk ended. -/
structure SizeClassReport where
  meta : SizeClassMeta
  entries : List SlabEntry
  status : TravStatus
deriving DecidableEq

/-- The per-size-class body of `invoke`: decode the three metadata fields of
the table entry at `addr`, read the free-list head with `read_u64`, print the
header line, walk the slab list, print a blank line.  Returns `none` when one
of the descriptor reads fails (the Python code raises before any slab is
visited). -/
def classReportAtLog (inf : Inferior) (lay : Layout) (fuel addr : Nat) :
    Option SizeClassReport × List Effect :=
  let sA := addr + lay.sizeOffset
  match readMemory inf sA lay.sizeWidth with
  | none => (none, [.readMem sA lay.sizeWidth])
  | some sb =>
    let oA := addr + lay.orderOffset
    match readMemory inf oA lay.orderWidth with
    | none => (none, [.readMem sA lay.sizeWidth, .readMem oA lay.orderWidth])
    | some ob =>
      let pA := addr + lay.opsOffset
      match readMemory inf pA lay.opsWidth with
      | none =>
        (none, [.readMem sA lay.sizeWidth, .readMem oA lay.orderWidth,
          .readMem pA lay.opsWidth])
      | some pb =>
        let meta : SizeClassMeta := ⟨fromBytesLE sb, fromBytesLE ob, fromBytesLE pb⟩
        let hA := addr + lay.headOffset
        match read_u64 inf hA with
        | none =>
          (none, [.readMem sA lay.sizeWidth, .readMem oA lay.orderWidth,
            .readMem pA lay.opsWidth, .readMem hA 8])
        | some head =>
          let r := printSlabListLog inf lay meta fuel head
          (some ⟨meta, r.1, r.2.1⟩,
            [.readMem sA lay.sizeWidth, .readMem oA lay.orderWidth,
              .readMem pA lay.opsWidth, .readMem hA 8, .print]
              ++ r.2.2 ++ [.print])

/-- Whether the run proceeds to the next size class after this traversal
status.  The Python loop only continues when no exception was raised: a
normal (`ok`) or sentinel (`corrupt`) end continues; a failed read
(`accessError`) propagates the exception out of `invoke`, and `fuelOut`
models the loop never finishing at all. -/
def TravStatus.continues : TravStatus → Bool
  | .ok => true
  | .corrupt => true
  | _ => false

/-- Whether an entire invocation ran to completion (`completed`) or ended
early with a raised exception or a hung traversal (`aborted`). -/
inductive RunStatus where
  | completed
  | aborted
deriving DecidableEq

/-- The `for size_class_idx in range(SIZE_CLASS_COUNT)` loop of `invoke`,
with `n` iterations remaining and `i` the current index.  Each iteration
decodes the table entry at `base + i * sizeof(SizeClass)`; an unhandled
failure ends the whole loop. -/
def invokeLoop (inf : Inferior) (lay : Layout) (base fuel : Nat) :
    Nat → Nat → List SizeClassReport × RunStatus × List Effect
  | 0, _ => ([], .completed, [])
  | n + 1, i =>
    let r := classReportAtLog inf lay fuel (base + i * lay.sizeClassSize)
    match r.1 with
    | none => ([], .aborted, r.2)
    | some rep =>
      if rep.status.continues then
        let rest := invokeLoop inf lay base fuel n (i + 1)
        (rep :: rest.1, rest.2.1, r.2 ++ rest.2.2)
      else ([rep], .aborted, r.2)

/-- Mirror of `HeapDumpCmd.invoke`: look up the `SizeClass` type and the
`ALLOCATOR` symbol (yielding `base`), then iterate over all
`SIZE_CLASS_COUNT` size-class indices in ascending order. -/
def invokeLog (inf : Inferior) (lay : Layout) (base fuel : Nat) :
    List SizeClassReport × RunStatus × List Effect :=
  let r := invokeLoop inf lay base fuel SIZE_CLASS_COUNT 0
  (r.1, r.2.1, [Effect.lookupType, Effect.lookupSymbol] ++ r.2.2)

/-- Reports and run status of one `heapdump` invocation. -/
def invoke (inf : Inferior) (lay : Layout) (base fuel : Nat) :
    List SizeClassReport × RunStatus :=
  let r := invokeLog inf lay base fuel
  (r.1, r.2.1)

/-- The free-list structure a given memory image encodes, rooted at `addr`:
how the chain of `link.next` values unfolds under single decode steps, which
entries it yields, and how it ends (`ok` at the null terminator `0`,
`corrupt` at the sentinel `1`, `accessError` at an unreadable header). -/
inductive Walk (inf : Inferior) (lay : Layout) (bsz : Nat) :
    Nat → List SlabEntry → TravStatus → Prop where
  | nil : Walk inf lay bsz 0 [] .ok
  | corrupt : Walk inf lay bsz 1 [] .corrupt
  | fail : ∀ addr, addr ≠ 0 → addr ≠ 1 →
      slabStep inf lay bsz addr = none →
      Walk inf lay bsz addr [] .accessError
  | cons : ∀ addr e next es st, addr ≠ 0 → addr ≠ 1 →
      slabStep inf lay bsz addr = some (e, next) →
      Walk inf lay bsz next es st →
      Walk inf lay bsz addr (e :: es) st

/-- The memory reads a successful slab decode performs: the `allocated`
field, the bitmap right after the header, and the 64-bit `link.next`. -/
def readsOfStep (lay : Layout) (bsz addr : Nat) : List Effect :=
  [.readMem (addr + lay.allocatedOffset) lay.allocatedWidth,
   .readMem (addr + lay.headerSize) bsz,
   .readMem (addr + lay.linkNextOffset) 8]

/-- Effects that are not writes to target memory: memory reads, symbol and
type lookups, and printed output. -/
def Effect.isBenign : Effect → Bool
  | .writeMem _ _ => false
  | _ => true

/-- Little-endian encoding of `v` into `w` bytes, inverse of `fromBytesLE`
on values below `256 ^ w`; used to build synthetic target memories. -/
def toBytesLE : Nat → Nat → List Nat
  | 0, _ => []
  | w + 1, v => v % 256 :: toBytesLE w (v / 256)

/-- Concrete layout used for synthetic memories: 32-byte `SizeClass` table
entries with `size`, `slab_order` and `objects_per_slab` as eight-byte fields
at offsets 0, 8 and 16 and the free-list head at offset 24; 16-byte slab
headers with `allocated` at offset 0 and `link.next` at offset 8. -/
def L0 : Layout := ⟨32, 0, 8, 8, 8, 16, 8, 24, 16, 0, 8, 8⟩

/-- Byte map of a synthetic slab at `addr` under `L0`: the eight-byte
`allocated` counter `c` at offset 0, the eight-byte `link.next` value `n` at
offset 8, and the bitmap bytes `bs` right after the 16-byte header. -/
def mkSlabMemFn (addr c n : Nat) (bs : List Nat) (a : Nat) : Option Nat :=
  if a < addr then none
  else if a < addr + 8 then some ((toBytesLE 8 c).getD (a - addr) 0)
  else if a < addr + 16 then some ((toBytesLE 8 n).getD (a - (addr + 8)) 0)
  else if a < addr + 16 + bs.length then some (bs.getD (a - (addr + 16)) 0)
  else none

/-- Synthetic target containing exactly one slab. -/
def mkSlab (addr c n : Nat) (bs : List Nat) : Inferior :=
  ⟨mkSlabMemFn addr c n bs⟩

/-- Pointwise union of two byte maps, first map wins; used to lay several
synthetic slabs into one target memory. -/
def memUnion (f g : Nat → Option Nat) (a : Nat) : Option Nat :=
  match f a with
  | some b => some b
  | none => g a

/-- Ground-truth bit count used to certify the bit-twiddling code: the
number of set bits among the first `k` bit positions of a byte sequence,
where bit position `p` is bit `p % 8` of byte `p / 8` (least-significant
bit first within each byte). -/
def popcountFirstBits (k : Nat) (bs : List Nat) : Nat :=
  (List.range k).countP (fun p => (bs.getD (p / 8) 0).testBit (p % 8))

/-- Target for the abort scenarios: the 25-entry size-class table lives at
base address 0 (25 entries of 32 bytes, addresses `0..799`), every byte is
zero except byte 25, which makes size class 0's free-list head the unmapped
address 4096; nothing outside the table is mapped. -/
def abortMemFn (a : Nat) : Option Nat :=
  if a = 25 then some 16
  else if a < 800 then some 0
  else none

def abortInf : Inferior :=
  ⟨abortMemFn⟩

/-- Target whose whole 25-entry table at base 0 is zeros: every size class
decodes with metadata 0 and an empty (null-headed) free-list. -/
def zeroTableMemFn (a : Nat) : Option Nat :=
  if a < 800 then some 0 else none

def zeroTableInf : Inferior :=
  ⟨zeroTableMemFn⟩

/-- Target with a single slab at 64 whose `link.next` holds the corrupt
sentinel value 1. -/
def sentinelInf : Inferior :=
  mkSlab 64 0 1 [0]

/-- Target with two slabs: a mismatching slab at 64 (counter 1, empty
bitmap) linking to a matching slab at 128 (counter 1, one bit set) that
terminates the list with a null link. -/
def twoSlabInf : Inferior :=
  ⟨memUnion (mkSlabMemFn 64 1 128 [0]) (mkSlabMemFn 128 1 0 [1])⟩

theorem count_int_bits_loop_fuel :
    ∀ (b f1 f2 : Nat), b ≤ f1 → b ≤ f2 →
    count_int_bits_loop f1 b = count_int_bits_loop f2 b := by
  intro b
  induction b using Nat.strong_induction_on with
  | _ b ih =>
    intro f1 f2 h1 h2
    by_cases hb : b = 0
    · subst hb
      cases f1 <;> cases f2 <;> simp [count_int_bits_loop]
    · have hb1 : 1 ≤ b := Nat.one_le_iff_ne_zero.mpr hb
      obtain ⟨g1, rfl⟩ : ∃ g1, f1 = g1 + 1 := ⟨f1 - 1, by omega⟩
      obtain ⟨g2, rfl⟩ : ∃ g2, f2 = g2 + 1 := ⟨f2 - 1, by omega⟩
      have hlt : b &&& (b - 1) < b := by
        have hle : b &&& (b - 1) ≤ b - 1 := Nat.and_le_right
        omega
      simp only [count_int_bits_loop, if_neg hb]
      rw [ih (b &&& (b - 1)) hlt g1 g2 (by omega) (by omega)]

/-- The Kernighan recurrence that `count_int_bits` implements. -/
theorem count_int_bits_rec (b : Nat) (hb : b ≠ 0) :
    count_int_bits b = 1 + count_int_bits (b &&& (b - 1)) := by
  obtain ⟨g, rfl⟩ : ∃ g, b = g + 1 := ⟨b - 1, by omega⟩
  have hlt : (g + 1) &&& (g + 1 - 1) < g + 1 := by
    have hle : (g + 1) &&& (g + 1 - 1) ≤ g + 1 - 1 := Nat.and_le_right
    omega
  unfold count_int_bits
  have hstep : count_int_bits_loop (g + 1) (g + 1)
      = if g + 1 = 0 then 0
        else 1 + count_int_bits_loop g ((g + 1) &&& (g + 1 - 1)) := rfl
  rw [hstep, if_neg hb]
  exact congrArg (fun t => 1 + t)
    (count_int_bits_loop_fuel ((g + 1) &&& (g + 1 - 1)) g _ (by omega)
      (Nat.le_refl _))

/-- A successful decode step records the stepped address in its entry. -/
theorem slabStep_addr {inf : Inferior} {lay : Layout} {bsz addr : Nat}
    {e : SlabEntry} {next : Nat}
    (h : slabStep inf lay bsz addr = some (e, next)) : e.addr = addr := by
  rcases h1 : readMemory inf (addr + lay.allocatedOffset) lay.allocatedWidth with _ | ab
  · simp [slabStep, slabStepLog, h1] at h
  · rcases h2 : readMemory inf (addr + lay.headerSize) bsz with _ | bm
    · simp [slabStep, slabStepLog, h1, h2] at h
    · rcases h3 : readMemory inf (addr + lay.linkNextOffset) 8 with _ | nb
      · simp [slabStep, slabStepLog, h1, h2, h3] at h
      · simp only [slabStep, slabStepLog, h1, h2, h3, Option.some.injEq,
          Prod.mk.injEq] at h
        rw [← h.1]

/-- With enough fuel, the loop of `_print_slab_list` produces exactly the
entries and status that the memory image's free-list structure dictates. -/
theorem printSlabLoop_of_walk {inf : Inferior} {lay : Layout} {bsz : Nat} :
    ∀ {addr : Nat} {es : List SlabEntry} {st : TravStatus},
    Walk inf lay bsz addr es st → ∀ {fuel : Nat}, es.length < fuel →
    (printSlabLoop inf lay bsz fuel addr).1 = es ∧
      (printSlabLoop inf lay bsz fuel addr).2.1 = st := by
  intro addr es st hw
  induction hw with
  | nil =>
    intro fuel hf
    match fuel, hf with
    | f + 1, _ => simp [printSlabLoop]
  | corrupt =>
    intro fuel hf
    match fuel, hf with
    | f + 1, _ => simp [printSlabLoop]
  | fail addr h0 h1 hstep =>
    intro fuel hf
    match fuel, hf with
    | f + 1, _ =>
      simp only [printSlabLoop, if_neg h0, if_neg h1]
      rw [show (slabStepLog inf lay bsz addr).1 = none from hstep]
      exact ⟨rfl, rfl⟩
  | cons addr e next es st h0 h1 hstep htail ih =>
    intro fuel hf
    match fuel, hf with
    | f + 1, hf =>
      simp only [printSlabLoop, if_neg h0, if_neg h1]
      rw [show (slabStepLog inf lay bsz addr).1 = some (e, next) from hstep]
      have hrest := ih (show es.length < f by
        simpa using Nat.lt_of_succ_lt_succ hf)
      exact ⟨by simp [hrest.1], by simp [hrest.2]⟩

/-- The read effects of a successful decode step are exactly its three
field reads. -/
theorem slabStepLog_reads {inf : Inferior} {lay : Layout} {bsz addr : Nat}
    {e : SlabEntry} {next : Nat}
    (h : (slabStepLog inf lay bsz addr).1 = some (e, next)) :
    ((slabStepLog inf lay bsz addr).2).filter Effect.isRead =
      readsOfStep lay bsz addr := by
  rcases h1 : readMemory inf (addr + lay.allocatedOffset) lay.allocatedWidth with _ | ab
  · simp [slabStepLog, h1] at h
  · rcases h2 : readMemory inf (addr + lay.headerSize) bsz with _ | bm
    · simp [slabStepLog, h1, h2] at h
    · rcases h3 : readMemory inf (addr + lay.linkNextOffset) 8 with _ | nb
      · simp [slabStepLog, h1, h2, h3] at h
      · by_cases hm : (fromBytesLE ab != count_set_bits bm) = true <;>
          simp [slabStepLog, h1, h2, h3, hm, readsOfStep, Effect.isRead]

/-- When the free-list ends at the corrupt sentinel, the loop's read trace
is exactly the reads of the successfully decoded slabs: nothing is read at
or beyond the sentinel. -/
theorem printSlabLoop_reads_of_walk_corrupt {inf : Inferior} {lay : Layout}
    {bsz : Nat} :
    ∀ {addr : Nat} {es : List SlabEntry} {st : TravStatus},
    Walk inf lay bsz addr es st → st = .corrupt → ∀ {fuel : Nat},
    es.length < fuel →
    ((printSlabLoop inf lay bsz fuel addr).2.2).filter Effect.isRead =
      (es.map (fun e => readsOfStep lay bsz e.addr)).flatten := by
  intro addr es st hw
  induction hw with
  | nil => intro hst; cases hst
  | corrupt =>
    intro _ fuel hf
    match fuel, hf with
    | f + 1, _ => simp [printSlabLoop, Effect.isRead]
  | fail addr h0 h1 hstep => intro hst; cases hst
  | cons addr e next es st h0 h1 hstep htail ih =>
    intro hst fuel hf
    match fuel, hf with
    | f + 1, hf =>
      simp only [printSlabLoop, if_neg h0, if_neg h1]
      rw [show (slabStepLog inf lay bsz addr).1 = some (e, next) from hstep]
      have hrest := ih hst (show es.length < f by
        simpa using Nat.lt_of_succ_lt_succ hf)
      have haddr : e.addr = addr := slabStep_addr hstep
      simp only [List.map_cons, List.flatten_cons, List.filter_append, hrest, haddr]
      rw [slabStepLog_reads hstep]

/-- When every remaining size class decodes to a report whose traversal ends
without an exception, the invocation loop emits exactly those reports, in
ascending index order, and completes. -/
theorem invokeLoop_ok (inf : Inferior) (lay : Layout) (base fuel : Nat)
    (R : Nat → SizeClassReport) :
    ∀ (n i : Nat), (∀ j, i ≤ j → j < i + n →
      (classReportAtLog inf lay fuel (base + j * lay.sizeClassSize)).1 = some (R j) ∧
        (R j).status.continues = true) →
    (invokeLoop inf lay base fuel n i).1 = (List.range n).map (fun t => R (i + t)) ∧
      (invokeLoop inf lay base fuel n i).2.1 = .completed := by
  intro n
  induction n with
  | zero => intro i _; simp [invokeLoop]
  | succ n ih =>
    intro i h
    have hi := h i (Nat.le_refl i) (by omega)
    have hrest := ih (i + 1) (fun j hj1 hj2 => h j (by omega) (by omega))
    simp only [invokeLoop]
    rw [hi.1]
    simp only [hi.2, if_true]
    refine ⟨?_, by simpa using hrest.2⟩
    simp only [List.range_succ_eq_map, List.map_cons, List.map_map, Nat.add_zero]
    refine congrArg₂ _ rfl ?_
    rw [hrest.1]
    apply List.map_congr_left
    intro t _
    simp only [Function.comp]
    congr 1
    omega

/-- When the first size class whose traversal raises (or hangs) is index `m`,
the invocation loop emits the reports for indices below `m`, then the partial
report for `m`, and aborts: indices beyond `m` are never processed. -/
theorem invokeLoop_abort (inf : Inferior) (lay : Layout) (base fuel : Nat)
    (R : Nat → SizeClassReport) (rm : SizeClassReport) (m : Nat) :
    ∀ (n i : Nat), i ≤ m → m < i + n →
    (∀ j, i ≤ j → j < m →
      (classReportAtLog inf lay fuel (base + j * lay.sizeClassSize)).1 = some (R j) ∧
        (R j).status.continues = true) →
    (classReportAtLog inf lay fuel (base + m * lay.sizeClassSize)).1 = some rm →
    rm.status.continues = false →
    (invokeLoop inf lay base fuel n i).1 =
      (List.range (m - i)).map (fun t => R (i + t)) ++ [rm] ∧
      (invokeLoop inf lay base fuel n i).2.1 = .aborted := by
  intro n
  induction n with
  | zero => intro i h1 h2 _ _ _; omega
  | succ n ih =>
    intro i him hlt h hm hcont
    by_cases hcase : i = m
    · subst hcase
      simp only [invokeLoop]
      rw [hm]
      simp only [hcont, if_false]
      simp
    · have hi := h i (Nat.le_refl i) (by omega)
      have hrest := ih (i + 1) (by omega) (by omega)
        (fun j hj1 hj2 => h j (by omega) hj2) hm hcont
      simp only [invokeLoop]
      rw [hi.1]
      simp only [hi.2, if_true]
      refine ⟨?_, by simpa using hrest.2⟩
      have hk : m - i = (m - (i + 1)) + 1 := by omega
      rw [hk]
      simp only [List.range_succ_eq_map, List.map_cons, List.map_map,
        Nat.add_zero, List.cons_append]
      refine congrArg₂ _ rfl ?_
      rw [hrest.1]
      refine congrArg₂ _ ?_ rfl
      apply List.map_congr_left
      intro t _
      simp only [Function.comp]
      congr 1
      omega

/-- A single decode step performs no write to target memory. -/
theorem slabStepLog_benign (inf : Inferior) (lay : Layout) (bsz addr : Nat) :
    ((slabStepLog inf lay bsz addr).2).all Effect.isBenign = true := by
  rcases h1 : readMemory inf (addr + lay.allocatedOffset) lay.allocatedWidth with _ | ab
  · simp [slabStepLog, h1, Effect.isBenign]
  · rcases h2 : readMemory inf (addr + lay.headerSize) bsz with _ | bm
    · simp [slabStepLog, h1, h2, Effect.isBenign]
    · rcases h3 : readMemory inf (addr + lay.linkNextOffset) 8 with _ | nb
      · by_cases hm : (fromBytesLE ab != count_set_bits bm) = true <;>
          simp [slabStepLog, h1, h2, h3, hm, Effect.isBenign]
      · by_cases hm : (fromBytesLE ab != count_set_bits bm) = true <;>
          simp [slabStepLog, h1, h2, h3, hm, Effect.isBenign]

/-- The slab-list loop performs no write to target memory. -/
theorem printSlabLoop_benign (inf : Inferior) (lay : Layout) (bsz : Nat) :
    ∀ (fuel cur : Nat),
    ((printSlabLoop inf lay bsz fuel cur).2.2).all Effect.isBenign = true := by
  intro fuel
  induction fuel with
  | zero => intro cur; simp [printSlabLoop]
  | succ f ih =>
    intro cur
    by_cases h0 : cur = 0
    · simp [printSlabLoop, h0]
    · by_cases h1 : cur = 1
      · simp [printSlabLoop, h0, h1, Effect.isBenign]
      · simp only [printSlabLoop, if_neg h0, if_neg h1]
        rcases hs : (slabStepLog inf lay bsz cur).1 with _ | ⟨e, next⟩
        · simpa using slabStepLog_benign inf lay bsz cur
        · simp only [List.all_append]
          rw [slabStepLog_benign inf lay bsz cur]
          simpa using ih next

/-- Decoding and walking one size class performs no write to target memory. -/
theorem classReportAtLog_benign (inf : Inferior) (lay : Layout)
    (fuel addr : Nat) :
    ((classReportAtLog inf lay fuel addr).2).all Effect.isBenign = true := by
  rcases h1 : readMemory inf (addr + lay.sizeOffset) lay.sizeWidth with _ | sb
  · simp [classReportAtLog, h1, Effect.isBenign]
  · rcases h2 : readMemory inf (addr + lay.orderOffset) lay.orderWidth with _ | ob
    · simp [classReportAtLog, h1, h2, Effect.isBenign]
    · rcases h3 : readMemory inf (addr + lay.opsOffset) lay.opsWidth with _ | pb
      · simp [classReportAtLog, h1, h2, h3, Effect.isBenign]
      · rcases h4 : read_u64 inf (addr + lay.headOffset) with _ | head
        · simp [classReportAtLog, h1, h2, h3, h4, Effect.isBenign]
        · simp only [classReportAtLog, h1, h2, h3, h4, printSlabListLog,
            List.all_append, List.all_cons]
          have := printSlabLoop_benign inf lay
            (bitmap_size (fromBytesLE pb)) fuel head
          simp [Effect.isBenign, this]

/-- The whole invocation loop performs no write to target memory. -/
theorem invokeLoop_benign (inf : Inferior) (lay : Layout) (base fuel : Nat) :
    ∀ (n i : Nat),
    ((invokeLoop inf lay base fuel n i).2.2).all Effect.isBenign = true := by
  intro n
  induction n with
  | zero => intro i; simp [invokeLoop]
  | succ n ih =>
    intro i
    rcases hr : (classReportAtLog inf lay fuel (base + i * lay.sizeClassSize)).1
      with _ | rep
    · simp only [invokeLoop]
      rw [hr]
      exact classReportAtLog_benign inf lay fuel (base + i * lay.sizeClassSize)
    · simp only [invokeLoop]
      rw [hr]
      by_cases hc : rep.status.continues = true
      · simp only [hc, if_true, List.all_append]
        rw [classReportAtLog_benign inf lay fuel (base + i * lay.sizeClassSize)]
        simpa using ih (i + 1)
      · simp only [hc, if_false]
        exact classReportAtLog_benign inf lay fuel (base + i * lay.sizeClassSize)

theorem toBytesLE_length : ∀ (w v : Nat), (toBytesLE w v).length = w := by
  intro w
  induction w with
  | zero => intro v; rfl
  | succ w ih => intro v; simp [toBytesLE, ih]

theorem fromBytesLE_toBytesLE : ∀ (w v : Nat), v < 256 ^ w →
    fromBytesLE (toBytesLE w v) = v := by
  intro w
  induction w with
  | zero =>
    intro v hv
    simp only [pow_zero, Nat.lt_one_iff] at hv
    simp [hv, toBytesLE, fromBytesLE]
  | succ w ih =>
    intro v hv
    have hdiv : v / 256 < 256 ^ w := by
      rw [Nat.div_lt_iff_lt_mul (by norm_num)]
      rw [pow_succ] at hv
      exact hv
    simp only [toBytesLE, fromBytesLE, List.foldr_cons]
    have := ih (v / 256) hdiv
    simp only [fromBytesLE] at this
    rw [this]
    omega

/-- A read over a region of memory described pointwise by a function yields
exactly that function's values. -/
theorem readMemory_of_fun (inf : Inferior) :
    ∀ (n addr : Nat) (g : Nat → Nat),
    (∀ i, i < n → inf.mem (addr + i) = some (g i)) →
    readMemory inf addr n = some ((List.range n).map g) := by
  intro n
  induction n with
  | zero => intro addr g _; simp [readMemory]
  | succ n ih =>
    intro addr g h
    have h0 : inf.mem addr = some (g 0) := by
      have := h 0 (by omega)
      simpa using this
    have htail : readMemory inf (addr + 1) n = some ((List.range n).map (fun i => g (i + 1))) := by
      apply ih
      intro i hi
      have := h (i + 1) (by omega)
      rw [← this]
      congr 1
      omega
    simp only [readMemory, h0, htail, Option.map_some']
    congr 1
    simp only [List.range_succ_eq_map, List.map_cons, List.map_map]
    refine congrArg₂ _ rfl ?_
    apply List.map_congr_left
    intro t _
    simp [Function.comp]

theorem range_map_getD : ∀ (l : List Nat),
    (List.range l.length).map (fun i => l.getD i 0) = l := by
  intro l
  induction l with
  | nil => simp
  | cons b bs ih =>
    simp only [List.length_cons, List.range_succ_eq_map, List.map_cons,
      List.map_map, List.getD_cons_zero]
    refine congrArg₂ _ rfl ?_
    conv_rhs => rw [← ih]
    apply List.map_congr_left
    intro t _
    simp [Function.comp, List.getD_cons_succ]

theorem mkSlab_read_allocated (addr c n : Nat) (bs : List Nat) :
    readMemory (mkSlab addr c n bs) addr 8 = some (toBytesLE 8 c) := by
  have h := readMemory_of_fun (mkSlab addr c n bs) 8 addr
    (fun i => (toBytesLE 8 c).getD i 0) ?_
  · rw [h]
    congr 1
  · intro i hi
    simp only [mkSlab, mkSlabMemFn]
    rw [if_neg (by omega), if_pos (by omega), Nat.add_sub_cancel_left]

theorem mkSlab_read_link (addr c n : Nat) (bs : List Nat) :
    readMemory (mkSlab addr c n bs) (addr + 8) 8 = some (toBytesLE 8 n) := by
  have h := readMemory_of_fun (mkSlab addr c n bs) 8 (addr + 8)
    (fun i => (toBytesLE 8 n).getD i 0) ?_
  · rw [h]
    congr 1
  · intro i hi
    simp only [mkSlab, mkSlabMemFn]
    rw [if_neg (by omega), if_neg (by omega), if_pos (by omega),
      Nat.add_sub_cancel_left]

theorem mkSlab_read_bitmap (addr c n : Nat) (bs : List Nat) :
    readMemory (mkSlab addr c n bs) (addr + 16) bs.length = some bs := by
  have h := readMemory_of_fun (mkSlab addr c n bs) bs.length (addr + 16)
    (fun i => bs.getD i 0) ?_
  · rw [h]
    congr 1
    exact range_map_getD bs
  · intro i hi
    simp only [mkSlab, mkSlabMemFn]
    rw [if_neg (by omega), if_neg (by omega), if_neg (by omega),
      if_pos (by omega), Nat.add_sub_cancel_left]

/-- On a synthetic slab, the decode step recovers exactly the stored counter,
the bitmap popcount, the mismatch comparison between them, and the stored
next link. -/
theorem slabStep_mkSlab (addr c n : Nat) (bs : List Nat)
    (hc : c < 256 ^ 8) (hn : n < 256 ^ 8) :
    slabStep (mkSlab addr c n bs) L0 bs.length addr =
      some (⟨addr, c, count_set_bits bs, c != count_set_bits bs⟩, n) := by
  have h1 : readMemory (mkSlab addr c n bs) (addr + L0.allocatedOffset)
      L0.allocatedWidth = some (toBytesLE 8 c) := by
    show readMemory (mkSlab addr c n bs) (addr + 0) 8 = _
    rw [Nat.add_zero]
    exact mkSlab_read_allocated addr c n bs
  have h2 : readMemory (mkSlab addr c n bs) (addr + L0.headerSize) bs.length =
      some bs := mkSlab_read_bitmap addr c n bs
  have h3 : readMemory (mkSlab addr c n bs) (addr + L0.linkNextOffset) 8 =
      some (toBytesLE 8 n) := mkSlab_read_link addr c n bs
  simp only [slabStep, slabStepLog, h1, h2, h3]
  rw [fromBytesLE_toBytesLE 8 c hc, fromBytesLE_toBytesLE 8 n hn]

theorem countP_range_add (f : Nat → Bool) (a b : Nat) :
    (List.range (a + b)).countP f =
      (List.range a).countP f + (List.range b).countP (fun t => f (a + t)) := by
  rw [List.range_add, List.countP_append, List.countP_map]
  rfl

set_option maxRecDepth 4000 in
/-- Exhaustive check over all byte values: the Kernighan loop returns the
exact number of set bits of the byte. -/
theorem count_int_bits_byte :
    ∀ b, b < 256 → count_int_bits b = popcountFirstBits 8 [b] := by
  decide

/-- Summing per-byte counts computes the popcount of the whole bitmap. -/
theorem count_set_bits_popcount :
    ∀ bs : List Nat, (∀ b ∈ bs, b < 256) →
    count_set_bits bs = popcountFirstBits (8 * bs.length) bs := by
  intro bs
  induction bs with
  | nil => intro _; rfl
  | cons b bs ih =>
    intro hb
    have hsplit : popcountFirstBits (8 * (b :: bs).length) (b :: bs)
        = popcountFirstBits (8 + 8 * bs.length) (b :: bs) := by
      congr 1
      simp only [List.length_cons]
      omega
    rw [hsplit]
    unfold popcountFirstBits
    rw [countP_range_add]
    have hfirst : (List.range 8).countP
          (fun p => ((b :: bs).getD (p / 8) 0).testBit (p % 8))
        = popcountFirstBits 8 [b] := by
      unfold popcountFirstBits
      apply List.countP_congr
      intro p hp
      have hp8 : p < 8 := List.mem_range.mp hp
      have hdiv : p / 8 = 0 := Nat.div_eq_of_lt hp8
      simp [hdiv]
    have hrest : (List.range (8 * bs.length)).countP
          (fun t => ((b :: bs).getD ((8 + t) / 8) 0).testBit ((8 + t) % 8))
        = popcountFirstBits (8 * bs.length) bs := by
      unfold popcountFirstBits
      apply List.countP_congr
      intro t _
      have hdiv : (8 + t) / 8 = t / 8 + 1 := by
        rw [Nat.add_comm, Nat.add_div_right t (by norm_num)]
      have hmod : (8 + t) % 8 = t % 8 := by
        rw [Nat.add_comm, Nat.add_mod_right]
      simp [hdiv, hmod]
    rw [hfirst, hrest, ← ih (fun x hx => hb x (List.mem_cons_of_mem b hx))]
    have hbb := count_int_bits_byte b (hb b (List.mem_cons_self b bs))
    simp [count_set_bits, hbb]

/-- The mismatch flag of every decoded entry is exactly the comparison of
its stored counter against its bitmap popcount. -/
theorem slabStep_fields {inf : Inferior} {lay : Layout} {bsz addr : Nat}
    {e : SlabEntry} {next : Nat}
    (h : slabStep inf lay bsz addr = some (e, next)) :
    e.mismatch = (e.allocated != e.bitmapAllocated) := by
  rcases h1 : readMemory inf (addr + lay.allocatedOffset) lay.allocatedWidth with _ | ab
  · simp [slabStep, slabStepLog, h1] at h
  · rcases h2 : readMemory inf (addr + lay.headerSize) bsz with _ | bm
    · simp [slabStep, slabStepLog, h1, h2] at h
    · rcases h3 : readMemory inf (addr + lay.linkNextOffset) 8 with _ | nb
      · simp [slabStep, slabStepLog, h1, h2, h3] at h
      · simp only [slabStep, slabStepLog, h1, h2, h3, Option.some.injEq,
          Prod.mk.injEq] at h
        rw [← h.1]

/-- C3: a free-list of length `L` (`L ≥ 0`) terminated by the null sentinel
`0` produces exactly the `L` decoded slab entries and the normal,
non-corrupt status, whatever the individual entries' mismatch flags are: a
per-slab count mismatch never halts the traversal of the remaining slabs. -/
theorem null_terminated_traversal (inf : Inferior) (lay : Layout)
    (meta : SizeClassMeta) (fuel addr : Nat) (es : List SlabEntry)
    (hw : Walk inf lay (bitmap_size meta.objects_per_slab) addr es .ok)
    (hf : es.length < fuel) :
    printSlabList inf lay meta fuel addr = (es, .ok) := by
  have h := printSlabLoop_of_walk hw hf
  simp only [printSlabList, printSlabListLog]
  rw [h.1, h.2]

/-- Witness for C3 on a concrete two-slab list whose first slab has a count
mismatch and whose second decodes cleanly before the null terminator. -/
theorem null_terminated_traversal_witness :
    printSlabList twoSlabInf L0 ⟨16, 0, 8⟩ 3 64 =
      ([⟨64, 1, 0, true⟩, ⟨128, 1, 1, false⟩], .ok) :=
  null_terminated_traversal twoSlabInf L0 ⟨16, 0, 8⟩ 3 64
    [⟨64, 1, 0, true⟩, ⟨128, 1, 1, false⟩]
    (Walk.cons 64 ⟨64, 1, 0, true⟩ 128 [⟨128, 1, 1, false⟩] .ok
      (by decide) (by decide) (by decide)
      (Walk.cons 128 ⟨128, 1, 1, false⟩ 0 [] .ok
        (by decide) (by decide) (by decide) Walk.nil))
    (by decide)

/-- C2: when the k-th link of a free-list holds the reserved sentinel `1`,
the traversal produces exactly the `k-1` normally decoded entries, flags the
size class corrupt, performs no target-memory read beyond those entries'
own three reads each, and does not raise; a null head `0` is distinguished
from the sentinel, ending with the normal status instead. -/
theorem sentinel_stops_traversal (inf : Inferior) (lay : Layout)
    (meta : SizeClassMeta) (fuel addr : Nat) (es : List SlabEntry)
    (hw : Walk inf lay (bitmap_size meta.objects_per_slab) addr es .corrupt)
    (hf : es.length < fuel) :
    printSlabList inf lay meta fuel addr = (es, .corrupt) ∧
    ((printSlabListLog inf lay meta fuel addr).2.2).filter Effect.isRead =
      (es.map (fun e =>
        readsOfStep lay (bitmap_size meta.objects_per_slab) e.addr)).flatten ∧
    printSlabList inf lay meta fuel 0 = ([], .ok) := by
  refine ⟨?_, ?_, ?_⟩
  · have h := printSlabLoop_of_walk hw hf
    simp only [printSlabList, printSlabListLog]
    rw [h.1, h.2]
  · have h := printSlabLoop_reads_of_walk_corrupt hw rfl hf
    simp only [printSlabListLog, List.filter_cons]
    simpa [Effect.isRead] using h
  · obtain ⟨f, rfl⟩ : ∃ f, fuel = f + 1 := ⟨fuel - 1, by omega⟩
    simp [printSlabList, printSlabListLog, printSlabLoop]

/-- Witness for C2 on a concrete list whose second link (k = 2) is the
sentinel `1`: one decoded entry, a corrupt flag, reads only for that entry,
and the head `0` case ends normally. -/
theorem sentinel_stops_traversal_witness :
    printSlabList sentinelInf L0 ⟨16, 0, 8⟩ 3 64 =
      ([⟨64, 0, 0, false⟩], .corrupt) ∧
    ((printSlabListLog sentinelInf L0 ⟨16, 0, 8⟩ 3 64).2.2).filter Effect.isRead =
      ([(⟨64, 0, 0, false⟩ : SlabEntry)].map (fun e =>
        readsOfStep L0
          (bitmap_size (⟨16, 0, 8⟩ : SizeClassMeta).objects_per_slab)
          e.addr)).flatten ∧
    printSlabList sentinelInf L0 ⟨16, 0, 8⟩ 3 0 = ([], .ok) :=
  sentinel_stops_traversal sentinelInf L0 ⟨16, 0, 8⟩ 3 64 [⟨64, 0, 0, false⟩]
    (Walk.cons 64 ⟨64, 0, 0, false⟩ 1 [] .corrupt (by decide) (by decide)
      (by decide) Walk.corrupt)
    (by decide)

/-- C1 counterexample: in `abortInf`, size class 0's free-list head points
at unmapped memory, and the run stops right there with a single partial
report — even though size class 1 (table entry at `0 + 1 * 32`) decodes
fine on its own, so the claim that subsequent size classes are still fully
reported is false on this input. -/
theorem read_error_aborts_run_cex :
    invoke abortInf L0 0 3 = ([⟨⟨0, 0, 0⟩, [], .accessError⟩], .aborted) ∧
    (classReportAtLog abortInf L0 3 (0 + 1 * L0.sizeClassSize)).1 =
      some ⟨⟨0, 0, 0⟩, [], .ok⟩ ∧
    (invoke abortInf L0 0 3).1.length ≠ SIZE_CLASS_COUNT := by
  exact ⟨by decide, by decide, by decide⟩

/-- C1 (amended): a memory-access failure during size class `i`'s traversal
is fatal for the entire remaining run: the invocation emits the reports of
classes `0..i-1`, then class `i`'s partial report with the access-error
status, and aborts without attempting classes `i+1..SIZE_CLASS_COUNT-1`. -/
theorem read_error_aborts_whole_run (inf : Inferior) (lay : Layout)
    (base fuel : Nat) (R : Nat → SizeClassReport) (i : Nat)
    (ri : SizeClassReport) (hi : i < SIZE_CLASS_COUNT)
    (hok : ∀ j, j < i →
      (classReportAtLog inf lay fuel (base + j * lay.sizeClassSize)).1 =
          some (R j) ∧
        (R j).status.continues = true)
    (hcls : (classReportAtLog inf lay fuel (base + i * lay.sizeClassSize)).1 =
      some ri)
    (herr : ri.status = .accessError) :
    invoke inf lay base fuel = ((List.range i).map R ++ [ri], .aborted) := by
  have hcont : ri.status.continues = false := by
    rw [herr]
    rfl
  have h := invokeLoop_abort inf lay base fuel R ri i SIZE_CLASS_COUNT 0
    (by omega) (by omega) (fun j _ hj => hok j hj) hcls hcont
  simp only [invoke, invokeLog]
  have h1 : (invokeLoop inf lay base fuel SIZE_CLASS_COUNT 0).1 =
      (List.range i).map R ++ [ri] := by
    rw [h.1]
    refine congrArg₂ _ ?_ rfl
    apply List.map_congr_left
    intro t _
    rw [Nat.zero_add]
  rw [h1, h.2]

/-- Witness for the amended C1 at `abortInf`: the failure is in size class
0, so the run consists of that single partial report. -/
theorem read_error_aborts_whole_run_witness :
    invoke abortInf L0 0 3 =
      ((List.range 0).map (fun _ => (⟨⟨0, 0, 0⟩, [], .ok⟩ : SizeClassReport)) ++
        [⟨⟨0, 0, 0⟩, [], .accessError⟩], .aborted) :=
  read_error_aborts_whole_run abortInf L0 0 3
    (fun _ => ⟨⟨0, 0, 0⟩, [], .ok⟩) 0 ⟨⟨0, 0, 0⟩, [], .accessError⟩
    (by decide) (fun j hj => absurd hj (Nat.not_lt_zero j))
    (by decide) rfl

/-- C8 counterexample: the invocation on `abortInf` emits a single report,
not one per size class, so an invocation does not always visit all 25 size
classes. -/
theorem size_class_enumeration_cex :
    (invoke abortInf L0 0 3).1.length = 1 ∧ (1 : Nat) ≠ SIZE_CLASS_COUNT := by
  exact ⟨by decide, by decide⟩

/-- C8 (amended): when every size class decodes and its traversal ends
without an exception, an invocation visits all size classes — exactly the
fixed count `SIZE_CLASS_COUNT = 25` — in ascending index order, reading each
table entry at `base + index * elementSize`, and emits one report per size
class in that order. -/
theorem size_class_enumeration (inf : Inferior) (lay : Layout)
    (base fuel : Nat) (R : Nat → SizeClassReport)
    (hok : ∀ j, j < SIZE_CLASS_COUNT →
      (classReportAtLog inf lay fuel (base + j * lay.sizeClassSize)).1 =
          some (R j) ∧
        (R j).status.continues = true) :
    invoke inf lay base fuel =
      ((List.range SIZE_CLASS_COUNT).map R, .completed) := by
  have h := invokeLoop_ok inf lay base fuel R SIZE_CLASS_COUNT 0
    (fun j _ hj => hok j (by omega))
  simp only [invoke, invokeLog]
  have h1 : (invokeLoop inf lay base fuel SIZE_CLASS_COUNT 0).1 =
      (List.range SIZE_CLASS_COUNT).map R := by
    rw [h.1]
    apply List.map_congr_left
    intro t _
    rw [Nat.zero_add]
  rw [h1, h.2]

/-- Witness for the amended C8 on an all-zero table: all 25 size classes
are reported, in order, each with empty metadata and an empty list. -/
theorem size_class_enumeration_witness :
    invoke zeroTableInf L0 0 1 =
      ((List.range SIZE_CLASS_COUNT).map
        (fun _ => (⟨⟨0, 0, 0⟩, [], .ok⟩ : SizeClassReport)), .completed) :=
  size_class_enumeration zeroTableInf L0 0 1
    (fun _ => ⟨⟨0, 0, 0⟩, [], .ok⟩) (by decide)

/-- C4: a decoded slab entry's mismatch flag is false exactly when the
stored counter equals the bitmap popcount; and on a synthetic slab the
decode step recovers the stored counter `c`, the popcount of the bitmap
bytes `bs`, and the comparison of the two, so a counter equal to the
popcount yields no mismatch and any other counter yields a mismatch with
the same popcount. -/
theorem mismatch_iff_counter_ne_popcount :
    (∀ (inf : Inferior) (lay : Layout) (bsz addr : Nat) (e : SlabEntry)
      (next : Nat),
      slabStep inf lay bsz addr = some (e, next) →
      (e.mismatch = false ↔ e.allocated = e.bitmapAllocated)) ∧
    (∀ (addr c n : Nat) (bs : List Nat), c < 256 ^ 8 → n < 256 ^ 8 →
      slabStep (mkSlab addr c n bs) L0 bs.length addr =
        some (⟨addr, c, count_set_bits bs, c != count_set_bits bs⟩, n)) := by
  constructor
  · intro inf lay bsz addr e next h
    rw [slabStep_fields h]
    by_cases hx : e.allocated = e.bitmapAllocated <;> simp [hx]
  · intro addr c n bs hc hn
    exact slabStep_mkSlab addr c n bs hc hn

/-- Witness for C4: a concrete mismatching entry decoded from `twoSlabInf`,
and a synthetic slab with counter 3 and bitmap popcount 3. -/
theorem mismatch_iff_counter_ne_popcount_witness :
    ((⟨64, 1, 0, true⟩ : SlabEntry).mismatch = false ↔
      (⟨64, 1, 0, true⟩ : SlabEntry).allocated =
        (⟨64, 1, 0, true⟩ : SlabEntry).bitmapAllocated) ∧
    slabStep (mkSlab 64 3 0 [7]) L0 (List.length [7]) 64 =
      some (⟨64, 3, count_set_bits [7], 3 != count_set_bits [7]⟩, 0) :=
  ⟨mismatch_iff_counter_ne_popcount.1 twoSlabInf L0 1 64 ⟨64, 1, 0, true⟩ 128
      (by decide),
    mismatch_iff_counter_ne_popcount.2 64 3 0 [7] (by norm_num) (by norm_num)⟩

/-- C5: the bitmap byte length is exactly the ceiling of
`objects_per_slab / 8` — the least byte count `m` with
`objects_per_slab ≤ 8 * m`, with the claim's sample points 1, 8, 9 — and
every decode step reads the bitmap starting at the slab address plus the
slab-header size, with exactly that byte length. -/
theorem bitmap_length_and_location :
    (∀ k, k ≤ 8 * bitmap_size k ∧ ∀ m, k ≤ 8 * m → bitmap_size k ≤ m) ∧
    bitmap_size 1 = 1 ∧ bitmap_size 8 = 1 ∧ bitmap_size 9 = 2 ∧
    (∀ (inf : Inferior) (lay : Layout) (meta : SizeClassMeta) (addr : Nat)
      (e : SlabEntry) (next : Nat),
      (slabStepLog inf lay (bitmap_size meta.objects_per_slab) addr).1 =
        some (e, next) →
      Effect.readMem (addr + lay.headerSize)
          (bitmap_size meta.objects_per_slab) ∈
        (slabStepLog inf lay (bitmap_size meta.objects_per_slab) addr).2) := by
  refine ⟨?_, by decide, by decide, by decide, ?_⟩
  · intro k
    refine ⟨?_, ?_⟩
    · simp only [bitmap_size]
      omega
    · intro m hm
      simp only [bitmap_size]
      omega
  · intro inf lay meta addr e next h
    rcases h1 : readMemory inf (addr + lay.allocatedOffset) lay.allocatedWidth
      with _ | ab
    · simp [slabStepLog, h1] at h
    · rcases h2 : readMemory inf (addr + lay.headerSize)
        (bitmap_size meta.objects_per_slab) with _ | bm
      · simp [slabStepLog, h1, h2] at h
      · rcases h3 : readMemory inf (addr + lay.linkNextOffset) 8 with _ | nb
        · simp [slabStepLog, h1, h2, h3] at h
        · by_cases hm : (fromBytesLE ab != count_set_bits bm) = true <;>
            simp [slabStepLog, h1, h2, h3, hm]

/-- Witness for C5 at `objects_per_slab = 9` (2 bitmap bytes) and at a
concrete decode step whose bitmap read is at the slab address plus the
16-byte header size. -/
theorem bitmap_length_and_location_witness :
    (9 ≤ 8 * bitmap_size 9 ∧ bitmap_size 9 ≤ 2) ∧
    Effect.readMem (64 + L0.headerSize)
        (bitmap_size (⟨16, 0, 8⟩ : SizeClassMeta).objects_per_slab) ∈
      (slabStepLog sentinelInf L0
        (bitmap_size (⟨16, 0, 8⟩ : SizeClassMeta).objects_per_slab) 64).2 :=
  ⟨⟨(bitmap_length_and_location.1 9).1,
      (bitmap_length_and_location.1 9).2 2 (by norm_num)⟩,
    bitmap_length_and_location.2.2.2.2 sentinelInf L0 ⟨16, 0, 8⟩ 64
      ⟨64, 0, 0, false⟩ 1 (by decide)⟩

/-- C6: the per-byte counter follows the bit-clearing recurrence, returns
the exact number of set bits for every byte value `0..255`, and the bitmap
popcount equals the exact bit count of the whole byte sequence — the sum of
the per-byte counts over the byte partition. -/
theorem per_byte_popcount_exact :
    count_int_bits 0 = 0 ∧
    (∀ b, b ≠ 0 → count_int_bits b = 1 + count_int_bits (b &&& (b - 1))) ∧
    (∀ b, b < 256 → count_int_bits b = popcountFirstBits 8 [b]) ∧
    (∀ bs : List Nat, (∀ b ∈ bs, b < 256) →
      count_set_bits bs = popcountFirstBits (8 * bs.length) bs) :=
  ⟨rfl, count_int_bits_rec, count_int_bits_byte, count_set_bits_popcount⟩

/-- Witness for C6 at byte 13 (three set bits), the recurrence at 12, and
the byte sequence `[3, 5]`. -/
theorem per_byte_popcount_exact_witness :
    count_int_bits 13 = popcountFirstBits 8 [13] ∧
    count_int_bits 12 = 1 + count_int_bits (12 &&& (12 - 1)) ∧
    count_set_bits [3, 5] = popcountFirstBits (8 * [3, 5].length) [3, 5] :=
  ⟨per_byte_popcount_exact.2.2.1 13 (by decide),
    per_byte_popcount_exact.2.1 12 (by decide),
    per_byte_popcount_exact.2.2.2 [3, 5] (by decide)⟩

/-- C7: the bitmap popcount is the sum of the per-byte popcounts, and it is
invariant under any permutation of the byte sequence. -/
theorem popcount_additive_perm :
    (∀ bs : List Nat, count_set_bits bs = (bs.map count_int_bits).sum) ∧
    (∀ B C : List Nat, B.Perm C → count_set_bits B = count_set_bits C) := by
  constructor
  · intro bs
    rfl
  · intro B C h
    unfold count_set_bits
    exact (h.map count_int_bits).sum_eq

/-- Witness for C7 on `[3, 5]` and its transposition. -/
theorem popcount_additive_perm_witness :
    count_set_bits [3, 5] = ([3, 5].map count_int_bits).sum ∧
    count_set_bits [3, 5] = count_set_bits [5, 3] :=
  ⟨popcount_additive_perm.1 [3, 5],
    popcount_additive_perm.2 [3, 5] [5, 3] (List.Perm.swap 5 3 [])⟩

/-- C9: nothing masks the popcount to the first `objects_per_slab` bits.
With `objects_per_slab = 1` (not a multiple of 8), a bitmap byte `0xFE`
whose only set bits are the 7 trailing padding bits decodes to a bitmap
count of 7 and a reported mismatch, although the first bit agrees with the
stored counter 0; and a byte `0xFF` with stored counter 8 decodes without a
mismatch even though the bitmap-derived count 8 exceeds
`objects_per_slab = 1`. -/
theorem padding_bits_counted :
    slabStep (mkSlab 64 0 0 [254]) L0 (bitmap_size 1) 64 =
      some (⟨64, 0, 7, true⟩, 0) ∧
    popcountFirstBits 1 [254] = 0 ∧
    count_set_bits [254] = 7 ∧
    slabStep (mkSlab 64 8 0 [255]) L0 (bitmap_size 1) 64 =
      some (⟨64, 8, 8, false⟩, 0) ∧
    count_set_bits [255] > 1 := by
  exact ⟨by decide, by decide, by decide, by decide, by decide⟩

/-- C10: the effect trace of an entire invocation contains only benign
effects — target-memory reads, type and symbol lookups, and prints — and in
particular never a write to target memory; the run itself is a pure
function of the target memory and layout, holding no state of its own. -/
theorem no_target_writes :
    (∀ (inf : Inferior) (lay : Layout) (base fuel : Nat),
      ((invokeLog inf lay base fuel).2.2).all Effect.isBenign = true) ∧
    (∀ e : Effect, e.isBenign = true →
      e.isRead = true ∨ e = .lookupType ∨ e = .lookupSymbol ∨ e = .print) ∧
    (∀ e : Effect, e.isBenign = true → e.isWrite = false) := by
  refine ⟨?_, ?_, ?_⟩
  · intro inf lay base fuel
    simp only [invokeLog, List.all_cons]
    have h := invokeLoop_benign inf lay base fuel SIZE_CLASS_COUNT 0
    simp [Effect.isBenign, h]
  · intro e he
    cases e <;> simp_all [Effect.isBenign, Effect.isRead]
  · intro e he
    cases e <;> simp_all [Effect.isBenign, Effect.isWrite]

/-- Witness for C10: the concrete full run over the all-zero table has an
all-benign trace, and a concrete read effect is not a write. -/
theorem no_target_writes_witness :
    ((invokeLog zeroTableInf L0 0 1).2.2).all Effect.isBenign = true ∧
    Effect.isWrite (Effect.readMem 0 8) = false :=
  ⟨no_target_writes.1 zeroTableInf L0 0 1,
    no_target_writes.2.2 (Effect.readMem 0 8) (by decide)⟩


end HeapDump
